import Mathlib

/-!
Verification of the Common Crawl retrieval client (`common_crawler/crawl.py`).

Python strings are embedded as `List Char` (sequences of code points); the
Python building blocks `str.split` (with and without a maxsplit bound) and
`str.strip` are embedded as executable Lean functions.  External effects
(HTTP requests, S3 byte-range reads, gzip decompression, the stdlib JSON and
email parsers, `urllib.parse.unquote`) are passed in as explicit oracle
parameters, so every function of the source becomes a pure Lean function of
its oracles.
-/

/-- Python whitespace test used by `str.strip`. -/
def isPySpace (c : Char) : Bool := c.isWhitespace

/-- Boolean test that `l` starts with `p` (used to locate separators). -/
def startsWith : List Char → List Char → Bool
  | [], _ => true
  | _ :: _, [] => false
  | a :: as, b :: bs => a == b && startsWith as bs

/-- Left-to-right scan for the first occurrence of `sep`: returns the text
before and after that occurrence, or `none` when `sep` does not occur.  This
is the single step of Python's `str.split(sep, maxsplit)`. -/
def splitFirst (sep : List Char) : List Char → Option (List Char × List Char)
  | [] => if startsWith sep [] then some ([], []) else none
  | c :: cs =>
    if startsWith sep (c :: cs) then some ([], (c :: cs).drop sep.length)
    else
      match splitFirst sep cs with
      | some (a, b) => some (c :: a, b)
      | none => none

/-- Python `s.split(sep, maxsplit)` for a non-negative maxsplit. -/
def pySplit (sep : List Char) : Nat → List Char → List (List Char)
  | 0, s => [s]
  | m + 1, s =>
    match splitFirst sep s with
    | none => [s]
    | some (a, b) => a :: pySplit sep m b

/-- Python `s.split(sep)` (no maxsplit): `s.length` splits always suffice for
a non-empty separator. -/
def pySplitAll (sep s : List Char) : List (List Char) := pySplit sep s.length s

/-- Python `s.strip()`: drop whitespace from both ends. -/
def pyStrip (s : List Char) : List Char :=
  ((s.dropWhile isPySpace).reverse.dropWhile isPySpace).reverse

/-- The urlkey separator `)/` of the archive's key encoding. -/
def urlkeySep : List Char := [')', '/']

/-- Embedding of the nested `_urlkey_to_url` of `find_domain_urls`: split the
urlkey on the first `)/` (the tuple unpacking of `urlkey.split(')/', 1)`
raises `ValueError`, returning `None`, when the separator is missing),
reverse the comma-separated domain labels joining them with `.`, and append
`/path` when the path part is non-empty. -/
def _urlkey_to_url (urlkey : List Char) : Option (List Char) :=
  match splitFirst urlkeySep urlkey with
  | none => none
  | some (domain, path) =>
    let labels := (pySplitAll [','] domain).reverse
    let joined := List.intercalate ['.'] labels
    if !path.isEmpty then some (joined ++ '/' :: path) else some joined

/-- First-seen deduplication with an accumulator of already seen elements,
the semantics of `cytoolz.unique` over a finite sequence. -/
def uniqueAux {α : Type} [DecidableEq α] : List α → List α → List α
  | _, [] => []
  | seen, x :: xs =>
    if x ∈ seen then uniqueAux seen xs else x :: uniqueAux (x :: seen) xs

/-- Embedding of `cytoolz.unique`: keep the first occurrence of each element. -/
def unique {α : Type} [DecidableEq α] (l : List α) : List α := uniqueAux [] l

/-- Modelled from the spec: "deduplicate while preserving first-seen order",
written independently of `unique` as a left fold that appends an element only
when it has not been emitted yet. -/
def dedupFirstSeen {α : Type} [DecidableEq α] (l : List α) : List α :=
  l.foldl (fun acc x => if x ∈ acc then acc else acc ++ [x]) []

/-- Embedding of `__get_domain_urls_in_index`: query pages `0 .. N-1` of one
partition in ascending order and concatenate the lines of each response.
The page count query and the per-page text responses (already split into
lines by `bytes.splitlines`) are oracles; the transient
`ChunkedEncodingError` retry of `__query_index` always ends with the content
eventually returned, which is what the oracle supplies. -/
def get_domain_urls_in_index (pagesNumber : String → Nat)
    (pageLines : String → Nat → List (List Char)) (index : String) :
    List (List Char) :=
  ((List.range (pagesNumber index)).map (pageLines index)).flatten

/-- Embedding of `find_domain_urls`: gather the urlkey lines of every
partition in catalog order, transform them with `_urlkey_to_url`, drop the
falsy results (`filter(None)` removes both `None` and the empty string),
percent-decode (`unquote` is the stdlib oracle), strip, and deduplicate
keeping first occurrences. -/
def find_domain_urls (indexes : List String) (pagesNumber : String → Nat)
    (pageLines : String → Nat → List (List Char))
    (unquote : List Char → List Char) : List (List Char) :=
  let urls_by_index := indexes.map (get_domain_urls_in_index pagesNumber pageLines)
  unique (((((urls_by_index.flatten.map _urlkey_to_url).filterMap id).filter
      (fun u => !u.isEmpty)).map unquote).map (fun u => pyStrip u))

/-- One parsed JSON record of a partition's location response, with the
fields requested by `fl=filename,length,offset,status,timestamp`.  The
numeric strings of the index are modelled as naturals (the `int(...)`
conversions of `load_page_data` are the identity here). -/
structure CdxRecord where
  filename : String
  length : Nat
  offset : Nat
  status : String
  timestamp : String
deriving DecidableEq

/-- A `CdxRecord` tagged with the partition it came from
(`{**x, 'index': index}` in `__locate_url`). -/
structure LocationRecord extends CdxRecord where
  index : String
deriving DecidableEq

/-- Tagging of one record with its origin partition. -/
def tagRecord (index : String) (r : CdxRecord) : LocationRecord :=
  { toCdxRecord := r, index := index }

/-- One HTTP response of a partition's location query; each line of the
body is one parsed JSON record. -/
structure CdxResponse where
  status_code : Nat
  records : List CdxRecord
deriving DecidableEq

/-- The three ways one `__locate_url` call can react to a response: sleep
and retry (HTTP 503), contribute the tagged records of a 2xx response, or
contribute nothing (`None`) for any other status. -/
inductive LocateOutcome where
  | retry
  | contributes (records : List LocationRecord)
  | skipped
deriving DecidableEq

/-- Embedding of the branching of `__locate_url` on one response. -/
def locate_url_step (index : String) (resp : CdxResponse) : LocateOutcome :=
  if resp.status_code = 503 then .retry
  else if 200 ≤ resp.status_code ∧ resp.status_code < 300 then
    .contributes (resp.records.map (tagRecord index))
  else .skipped

/-- The value a `LocateOutcome` feeds into the `filter(None)` of
`get_url_location`: a 2xx response contributes its records, a skipped
partition contributes `None`.  (A retry never returns by itself.) -/
def outcome_contribution : LocateOutcome → Option (List LocationRecord)
  | .contributes rs => some rs
  | _ => none

/-- Embedding of `__locate_most_relevant_location`: the first record with
status `200`, else the first record.  The source indexes `locations[0]`,
which would raise on an empty list; `get_url_location` only calls this on a
non-empty list, and the `none` of this embedding marks that unreached case. -/
def locate_most_relevant_location (locations : List LocationRecord) :
    Option LocationRecord :=
  match locations.filter (fun x => x.status == "200") with
  | relevant :: _ => some relevant
  | [] => locations.head?

/-- The combined candidate list of `get_url_location`:
`pipe(indexes, map(locate), filter(None), concat, list)`.  A `map` object is
always truthy in Python, so `filter(None)` drops exactly the `None`
contributions. -/
def combined_locations (indexes : List String)
    (locate : String → Option (List LocationRecord)) : List LocationRecord :=
  ((indexes.map locate).filterMap id).flatten

/-- Embedding of `get_url_location`: query every partition in catalog order
(`locate index url` is the oracle for one partition's tagged response
records, `None` for a partition that contributed nothing) and select the
most relevant record of the combined list, `None` when the list is empty. -/
def get_url_location (indexes : List String)
    (locate : String → String → Option (List LocationRecord)) (url : String) :
    Option LocationRecord :=
  let locations := combined_locations indexes (fun index => locate index url)
  if !locations.isEmpty then locate_most_relevant_location locations else none

/-- One response of the catalog endpoint `collinfo.json`: its HTTP reason
phrase and the `cdx-api` field of each element of the parsed JSON array. -/
structure CatalogResponse where
  reason : String
  cdx_apis : List String

/-- The observable outcome of one `load_indexes` call: the returned list or
the raised `IOError`, the number of GET attempts, and the slept intervals. -/
structure CatalogRun where
  result : Except String (List String)
  attempts : Nat
  sleeps : List Nat

/-- The retry loop of `load_indexes`: `responses i` is the response of
attempt `i`, `rand i` the `random.randint(1, 3)` drawn after a failed
attempt `i`.  Returns the index of the first successful attempt (if any)
within the budget, the number of attempts made, and the sleeps performed. -/
def load_indexes_aux (responses : Nat → CatalogResponse) (rand : Nat → Nat) :
    Nat → Nat → Option Nat × Nat × List Nat
  | _, 0 => (none, 0, [])
  | i, budget + 1 =>
    if (responses i).reason = "OK" then (some i, 1, [])
    else
      match load_indexes_aux responses rand (i + 1) budget with
      | (r, a, s) => (r, a + 1, rand i :: s)

/-- Embedding of `load_indexes`: up to 10 attempts, `IOError` after 10
failures, else the `cdx-api` list of the first successful response,
truncated to `recent_k` entries when `recent_k` is non-zero. -/
def load_indexes (responses : Nat → CatalogResponse) (rand : Nat → Nat)
    (recent_k : Nat) : CatalogRun :=
  match load_indexes_aux responses rand 0 10 with
  | (none, a, s) => ⟨Except.error "Common crawl index is unreachable.", a, s⟩
  | (some i, a, s) =>
    let indexes := (responses i).cdx_apis
    ⟨Except.ok (if recent_k ≠ 0 then indexes.take recent_k else indexes), a, s⟩

/-- The blank-line separator `CRLFCRLF` of an archive slice. -/
def crlfcrlf : List Char := ['\r', '\n', '\r', '\n']

/-- A single line break `CRLF`. -/
def crlf : List Char := ['\r', '\n']

/-- The record built by `get_page_data_from_warc`: archive header, protocol
header, and the body when present. -/
structure WarcParts where
  warc_header : List Char
  http_header : List Char
  html : Option (List Char)
deriving DecidableEq

/-- Embedding of the parsing part of `get_page_data_from_warc`, applied to
the gzip-decompressed, `errors='replace'`-decoded text of the byte range
(that fetch is the `warcContent` oracle of `load_page_data`): strip the
text, split it on the first two occurrences of `CRLFCRLF`, and read
`parts[0]` and `parts[1]` unguarded (an `IndexError` escapes when the split
yields a single segment) and `parts[2]` guarded by `try`/`except`. -/
def get_page_data_from_warc (content : List Char) : Except String WarcParts :=
  match pySplit crlfcrlf 2 (pyStrip content) with
  | p0 :: p1 :: rest => Except.ok ⟨p0, p1, rest.head?⟩
  | _ => Except.error "IndexError"

/-- Embedding of `get_location_from_headers`: the tuple unpacking of
`headers.split('\r\n', 1)` raises `ValueError` when there is no `CRLF`;
otherwise the first line is discarded and the remainder is handed to the
stdlib `email` header parser, modelled by the `parseLoc` oracle returning
the value of the `Location` field when the field is present.  The source
then returns the value only when it is truthy (`if location:`), so a
present but empty value yields `None`. -/
def get_location_from_headers (parseLoc : List Char → Option (List Char))
    (headers : List Char) : Except String (Option (List Char)) :=
  match splitFirst crlf headers with
  | none => Except.error "ValueError"
  | some (_, headers_alone) =>
    match parseLoc headers_alone with
    | some location =>
      if !location.isEmpty then Except.ok (some location) else Except.ok none
    | none => Except.ok none

/-- The merged dictionary `{**location, **result}` returned by
`load_page_data`: all index fields plus the archive slice fields. -/
structure PageRecord extends LocationRecord where
  warc_header : List Char
  http_header : List Char
  html : Option (List Char)
deriving DecidableEq

/-- The merge `{**location, **result}` (the key sets are disjoint). -/
def mergeRecord (location : LocationRecord) (result : WarcParts) : PageRecord :=
  { toLocationRecord := location, warc_header := result.warc_header,
    http_header := result.http_header, html := result.html }

/-- Embedding of `load_page_data` with a fuel bound on the recursion (the
recursive call passes `follow_redirect = False`, so the depth never exceeds
two frames and the fuel is never exhausted from the entry point below).
`locate` is the partition query oracle of `get_url_location`, `warcContent`
the decompressed text of the S3 byte range for (filename, offset, length),
`parseLoc` the `email` header parser oracle.  The `if result:` of the
source is always true (the dict always holds `warc_header`), so it is not
modelled as a branch. -/
def load_page_data_fuel (indexes : List String)
    (locate : String → String → Option (List LocationRecord))
    (warcContent : String → Nat → Nat → List Char)
    (parseLoc : List Char → Option (List Char)) :
    Nat → String → Bool → Except String (Option PageRecord)
  | 0, _, _ => Except.error "RecursionError"
  | fuel + 1, url, follow_redirect =>
    match get_url_location indexes locate url with
    | none => Except.ok none
    | some location =>
      match get_page_data_from_warc
          (warcContent location.filename location.offset location.length) with
      | Except.error e => Except.error e
      | Except.ok result =>
        if follow_redirect && (location.status == "301" || location.status == "302") then
          match get_location_from_headers parseLoc result.http_header with
          | Except.error e => Except.error e
          | Except.ok (some new_url) =>
            match load_page_data_fuel indexes locate warcContent parseLoc fuel
                (String.mk new_url) false with
            | Except.error e => Except.error e
            | Except.ok (some new_result) => Except.ok (some new_result)
            | Except.ok none => Except.ok (some (mergeRecord location result))
          | Except.ok none => Except.ok (some (mergeRecord location result))
        else Except.ok (some (mergeRecord location result))

/-- Embedding of `load_page_data` at its fixed recursion bound. -/
def load_page_data (indexes : List String)
    (locate : String → String → Option (List LocationRecord))
    (warcContent : String → Nat → Nat → List Char)
    (parseLoc : List Char → Option (List Char))
    (url : String) (follow_redirect : Bool) : Except String (Option PageRecord) :=
  load_page_data_fuel indexes locate warcContent parseLoc 2 url follow_redirect

/-- Instrumented copy of `load_page_data_fuel` that additionally records the
argument pair `(url, follow_redirect)` of every `load_page_data` invocation
(each invocation performs exactly one `get_url_location` resolution). -/
def load_page_data_calls_fuel (indexes : List String)
    (locate : String → String → Option (List LocationRecord))
    (warcContent : String → Nat → Nat → List Char)
    (parseLoc : List Char → Option (List Char)) :
    Nat → String → Bool → Except String (Option PageRecord) × List (String × Bool)
  | 0, url, follow_redirect => (Except.error "RecursionError", [(url, follow_redirect)])
  | fuel + 1, url, follow_redirect =>
    let rest : Except String (Option PageRecord) × List (String × Bool) :=
      match get_url_location indexes locate url with
      | none => (Except.ok none, [])
      | some location =>
        match get_page_data_from_warc
            (warcContent location.filename location.offset location.length) with
        | Except.error e => (Except.error e, [])
        | Except.ok result =>
          if follow_redirect && (location.status == "301" || location.status == "302") then
            match get_location_from_headers parseLoc result.http_header with
            | Except.error e => (Except.error e, [])
            | Except.ok (some new_url) =>
              match load_page_data_calls_fuel indexes locate warcContent parseLoc fuel
                  (String.mk new_url) false with
              | (Except.error e, calls) => (Except.error e, calls)
              | (Except.ok (some new_result), calls) => (Except.ok (some new_result), calls)
              | (Except.ok none, calls) =>
                (Except.ok (some (mergeRecord location result)), calls)
            | Except.ok none => (Except.ok (some (mergeRecord location result)), [])
          else (Except.ok (some (mergeRecord location result)), [])
    (rest.1, (url, follow_redirect) :: rest.2)

/-- The instrumented `load_page_data` at its fixed recursion bound. -/
def load_page_data_calls (indexes : List String)
    (locate : String → String → Option (List LocationRecord))
    (warcContent : String → Nat → Nat → List Char)
    (parseLoc : List Char → Option (List Char))
    (url : String) (follow_redirect : Bool) :
    Except String (Option PageRecord) × List (String × Bool) :=
  load_page_data_calls_fuel indexes locate warcContent parseLoc 2 url follow_redirect

/-- Concrete catalog responses used to evaluate the retry loop: failures on
attempts 0 to 2 and a success on attempt 3. -/
def c6_responses : Nat → CatalogResponse := fun i =>
  if i = 3 then ⟨"OK", ["cdx-one", "cdx-two"]⟩ else ⟨"Service Unavailable", []⟩

/-- A concrete admissible jitter draw. -/
def c6_rand : Nat → Nat := fun _ => 2

/-- A concrete `email`-parser oracle recognising one Location header line. -/
def c10_parseLoc : List Char → Option (List Char) := fun s =>
  if s = "Location: http://x.example/y".toList then
    some ("http://x.example/y".toList)
  else none

/-- A concrete redirect record: partition `cdx-1` reports the capture of
`http://a.example/p` at `warc-a` with crawl status 301. -/
def c2_locA : LocationRecord :=
  { filename := "warc-a", length := 100, offset := 0, status := "301",
    timestamp := "20200101000000", index := "cdx-1" }

/-- A concrete record for the redirect target, itself a redirect (302). -/
def c2_locB : LocationRecord :=
  { filename := "warc-b", length := 50, offset := 200, status := "302",
    timestamp := "20200102000000", index := "cdx-1" }

/-- A concrete partition query oracle resolving the two URLs above. -/
def c2_locate : String → String → Option (List LocationRecord) := fun _ u =>
  if u = "http://a.example/p" then some [c2_locA]
  else if u = "http://b.example/q" then some [c2_locB]
  else none

/-- Concrete decompressed archive slices for the two records. -/
def c2_warcContent : String → Nat → Nat → List Char := fun f _ _ =>
  if f = "warc-a" then
    ("WARC/1.0 A\r\n\r\nHTTP/1.1 301 Moved\r\nLocation: " ++
      "http://b.example/q\r\n\r\n<p>a</p>").toList
  else
    ("WARC/1.0 B\r\n\r\nHTTP/1.1 302 Found\r\nLocation: " ++
      "http://c.example/r\r\n\r\n<p>b</p>").toList

/-- A concrete `email`-parser oracle for the two protocol headers above. -/
def c2_parseLoc : List Char → Option (List Char) := fun s =>
  if s = "Location: http://b.example/q".toList then
    some ("http://b.example/q".toList)
  else if s = "Location: http://c.example/r".toList then
    some ("http://c.example/r".toList)
  else none

/-- The parsed slice of the first record's archive content. -/
def c2_partsA : WarcParts :=
  ⟨"WARC/1.0 A".toList,
    ("HTTP/1.1 301 Moved\r\nLocation: " ++ "http://b.example/q").toList,
    some ("<p>a</p>".toList)⟩

/-! ## Lemmas about the string primitives -/

theorem startsWith_iff (p : List Char) : ∀ (l : List Char),
    startsWith p l = true ↔ ∃ t, l = p ++ t := by
  induction p with
  | nil => intro l; simp [startsWith]
  | cons a as ih =>
    intro l
    cases l with
    | nil => simp [startsWith]
    | cons b bs =>
      simp only [startsWith, Bool.and_eq_true, beq_iff_eq, ih, List.cons_append]
      constructor
      · rintro ⟨rfl, t, rfl⟩
        exact ⟨t, rfl⟩
      · rintro ⟨t, ht⟩
        injection ht with h1 h2
        exact ⟨h1.symm, t, h2⟩

theorem splitFirst_eq_some (sep : List Char) : ∀ (s a b : List Char),
    splitFirst sep s = some (a, b) → s = a ++ sep ++ b := by
  intro s
  induction s with
  | nil =>
    intro a b h
    simp only [splitFirst] at h
    by_cases hp : startsWith sep [] = true
    · obtain ⟨t, ht⟩ := (startsWith_iff sep []).mp hp
      rw [if_pos hp] at h
      injection h with h
      injection h with h1 h2
      subst h1; subst h2
      rcases List.append_eq_nil.mp ht.symm with ⟨rfl, rfl⟩
      rfl
    · rw [if_neg hp] at h
      exact absurd h (by simp)
  | cons c cs ih =>
    intro a b h
    simp only [splitFirst] at h
    by_cases hp : startsWith sep (c :: cs) = true
    · obtain ⟨t, ht⟩ := (startsWith_iff sep (c :: cs)).mp hp
      rw [if_pos hp] at h
      injection h with h
      injection h with h1 h2
      subst h1
      rw [ht, List.drop_left] at h2
      subst h2
      simpa using ht
    · rw [if_neg hp] at h
      cases hsc : splitFirst sep cs with
      | none => rw [hsc] at h; exact absurd h (by simp)
      | some ab =>
        obtain ⟨a0, b0⟩ := ab
        rw [hsc] at h
        injection h with h
        injection h with h1 h2
        have hcs := ih a0 b0 hsc
        rw [← h1, ← h2]
        simp [hcs]

theorem splitFirst_eq_none_iff (sep : List Char) : ∀ (s : List Char),
    splitFirst sep s = none ↔ ¬ ∃ a b, s = a ++ sep ++ b := by
  intro s
  induction s with
  | nil =>
    simp only [splitFirst]
    by_cases hp : startsWith sep [] = true
    · obtain ⟨t, ht⟩ := (startsWith_iff sep []).mp hp
      rcases List.append_eq_nil.mp ht.symm with ⟨rfl, rfl⟩
      simp [if_pos hp]
    · rw [if_neg hp]
      simp only [true_iff]
      rintro ⟨a, b, hab⟩
      rcases List.append_eq_nil.mp hab.symm with ⟨hab2, rfl⟩
      rcases List.append_eq_nil.mp hab2 with ⟨rfl, rfl⟩
      exact hp ((startsWith_iff [] []).mpr ⟨[], rfl⟩)
  | cons c cs ih =>
    simp only [splitFirst]
    by_cases hp : startsWith sep (c :: cs) = true
    · obtain ⟨t, ht⟩ := (startsWith_iff sep (c :: cs)).mp hp
      rw [if_pos hp]
      simp only [false_iff, not_not, reduceCtorEq]
      exact ⟨[], t, by simpa using ht⟩
    · rw [if_neg hp]
      cases hsc : splitFirst sep cs with
      | none =>
        simp only [true_iff]
        rintro ⟨a, b, hab⟩
        cases a with
        | nil =>
          simp only [List.nil_append] at hab
          exact hp ((startsWith_iff sep (c :: cs)).mpr ⟨b, hab⟩)
        | cons a0 as =>
          rw [List.cons_append, List.cons_append] at hab
          injection hab with h1 h2
          exact (ih.mp hsc) ⟨as, b, h2⟩
      | some ab =>
        obtain ⟨a0, b0⟩ := ab
        have hcs := splitFirst_eq_some sep cs a0 b0 hsc
        simp only [false_iff, not_not, reduceCtorEq]
        exact ⟨c :: a0, b0, by simp [hcs]⟩

theorem splitFirst_pair_append {x y : Char} (hxy : x ≠ y) :
    ∀ (d p : List Char), (¬ ∃ a b, d = a ++ [x, y] ++ b) →
      splitFirst [x, y] (d ++ [x, y] ++ p) = some (d, p) := by
  intro d
  induction d with
  | nil =>
    intro p _
    simp only [List.nil_append, List.cons_append]
    simp [splitFirst, startsWith]
  | cons c d' ih =>
    intro p hd
    have hd' : ¬ ∃ a b, d' = a ++ [x, y] ++ b := by
      rintro ⟨a, b, rfl⟩
      exact hd ⟨c :: a, b, by simp⟩
    have hns : startsWith [x, y] (c :: (d' ++ [x, y] ++ p)) = false := by
      cases d' with
      | nil =>
        simp only [List.nil_append, List.cons_append, startsWith]
        simp [beq_iff_eq, Ne.symm hxy]
      | cons e d2 =>
        by_contra hb
        rw [Bool.not_eq_false] at hb
        simp only [List.cons_append, startsWith, Bool.and_eq_true, beq_iff_eq] at hb
        obtain ⟨rfl, rfl, -⟩ := hb
        exact hd ⟨[], d2, by simp⟩
    rw [List.cons_append, List.cons_append]
    simp only [splitFirst, hns, Bool.false_eq_true, if_false, ih p hd']

theorem dropWhile_head_false (p : Char → Bool) : ∀ (l : List Char) (x : Char)
    (xs : List Char), l.dropWhile p = x :: xs → p x = false := by
  intro l
  induction l with
  | nil => intro x xs h; simp [List.dropWhile] at h
  | cons c cs ih =>
    intro x xs h
    rw [List.dropWhile_cons] at h
    cases hpc : p c with
    | true => rw [hpc] at h; simp at h; exact ih x xs h
    | false =>
      rw [hpc] at h
      simp at h
      obtain ⟨rfl, -⟩ := h
      exact hpc

theorem dropWhile_decomp (p : Char → Bool) : ∀ (l : List Char),
    ∃ t, l = t ++ l.dropWhile p := by
  intro l
  induction l with
  | nil => exact ⟨[], rfl⟩
  | cons c cs ih =>
    rw [List.dropWhile_cons]
    cases hpc : p c with
    | true =>
      obtain ⟨t, ht⟩ := ih
      refine ⟨c :: t, ?_⟩
      simpa using congrArg (c :: ·) ht
    | false => exact ⟨[], by simp⟩

theorem pyStrip_head_not_space (s : List Char) (x : Char) (xs : List Char)
    (h : pyStrip s = x :: xs) : isPySpace x = false := by
  unfold pyStrip at h
  obtain ⟨t, ht⟩ := dropWhile_decomp isPySpace (s.dropWhile isPySpace).reverse
  have hu : s.dropWhile isPySpace =
      ((s.dropWhile isPySpace).reverse.dropWhile isPySpace).reverse ++ t.reverse := by
    have h2 := congrArg List.reverse ht
    rwa [List.reverse_reverse, List.reverse_append] at h2
  rw [h] at hu
  exact dropWhile_head_false isPySpace s x (xs ++ t.reverse) (by rw [hu]; simp)

theorem pyStrip_last_not_space (s : List Char) (init : List Char) (x : Char)
    (h : pyStrip s = init ++ [x]) : isPySpace x = false := by
  unfold pyStrip at h
  have hv : (s.dropWhile isPySpace).reverse.dropWhile isPySpace = x :: init.reverse := by
    have h2 := congrArg List.reverse h
    rw [List.reverse_reverse] at h2
    simpa using h2
  exact dropWhile_head_false isPySpace _ x init.reverse hv

/-! ## Lemmas about first-seen deduplication -/

theorem uniqueAux_append_foldl {α : Type} [DecidableEq α] : ∀ (l seen acc : List α),
    (∀ x, x ∈ seen ↔ x ∈ acc) →
    acc ++ uniqueAux seen l =
      List.foldl (fun acc x => if x ∈ acc then acc else acc ++ [x]) acc l := by
  intro l
  induction l with
  | nil => intro seen acc _; simp [uniqueAux]
  | cons x xs ih =>
    intro seen acc hme
    simp only [uniqueAux, List.foldl_cons]
    by_cases hx : x ∈ seen
    · rw [if_pos hx, if_pos ((hme x).mp hx)]
      exact ih seen acc hme
    · rw [if_neg hx, if_neg (fun hc => hx ((hme x).mpr hc))]
      have step := ih (x :: seen) (acc ++ [x]) (by
        intro z
        simp only [List.mem_cons, List.mem_append, hme z]
        tauto)
      rw [← step]
      simp

theorem mem_uniqueAux {α : Type} [DecidableEq α] : ∀ (l seen : List α) (x : α),
    x ∈ uniqueAux seen l ↔ x ∈ l ∧ x ∉ seen := by
  intro l
  induction l with
  | nil => intro seen x; simp [uniqueAux]
  | cons y ys ih =>
    intro seen x
    simp only [uniqueAux]
    by_cases hy : y ∈ seen
    · rw [if_pos hy, ih]
      simp only [List.mem_cons]
      constructor
      · rintro ⟨hx, hns⟩
        exact ⟨Or.inr hx, hns⟩
      · rintro ⟨hx | hx, hns⟩
        · exact absurd (hx ▸ hy) hns
        · exact ⟨hx, hns⟩
    · rw [if_neg hy]
      simp only [List.mem_cons, ih, List.mem_cons, not_or]
      constructor
      · rintro (rfl | ⟨hx, hnx, hns⟩)
        · exact ⟨Or.inl rfl, hy⟩
        · exact ⟨Or.inr hx, hns⟩
      · rintro ⟨rfl | hx, hns⟩
        · exact Or.inl rfl
        · by_cases hxy : x = y
          · exact Or.inl hxy
          · exact Or.inr ⟨hx, hxy, hns⟩

theorem uniqueAux_nodup {α : Type} [DecidableEq α] : ∀ (l seen : List α),
    (uniqueAux seen l).Nodup := by
  intro l
  induction l with
  | nil => intro seen; simp [uniqueAux]
  | cons y ys ih =>
    intro seen
    simp only [uniqueAux]
    by_cases hy : y ∈ seen
    · rw [if_pos hy]; exact ih seen
    · rw [if_neg hy]
      refine List.nodup_cons.mpr ⟨?_, ih (y :: seen)⟩
      intro hmem
      exact ((mem_uniqueAux ys (y :: seen) y).mp hmem).2 (List.mem_cons_self y seen)

theorem unique_eq_dedupFirstSeen {α : Type} [DecidableEq α] (l : List α) :
    unique l = dedupFirstSeen l := by
  have h := uniqueAux_append_foldl l [] [] (by simp)
  simpa [unique, dedupFirstSeen] using h

theorem unique_nodup {α : Type} [DecidableEq α] (l : List α) : (unique l).Nodup :=
  uniqueAux_nodup l []

theorem mem_unique {α : Type} [DecidableEq α] (l : List α) (x : α) :
    x ∈ unique l ↔ x ∈ l := by
  simp [unique, mem_uniqueAux]

theorem find?_eq_filter_head? {α : Type} (p : α → Bool) : ∀ (l : List α),
    l.find? p = (l.filter p).head? := by
  intro l
  induction l with
  | nil => rfl
  | cons x xs ih =>
    cases hx : p x with
    | true => rw [List.find?_cons_of_pos _ hx, List.filter_cons_of_pos hx]; rfl
    | false =>
      rw [List.find?_cons_of_neg _ (by simp [hx]), List.filter_cons_of_neg (by simp [hx])]
      exact ih

/-! ## Claim theorems -/

/-- C3: the urlkey transform maps `com,example)/path` to `example.com/path`
and `com,example)/` to `example.com`; it yields no result exactly when the
key lacks the `)/` separator; and on `d ++ )/ ++ p` with no separator inside
`d` (so `)/` is split at its first occurrence) it reverses the
comma-separated labels of `d`, joins them with `.`, and appends `/p` when
`p` is non-empty. -/
theorem claim_c3 :
    (_urlkey_to_url ("com,example)/path".toList) = some ("example.com/path".toList))
  ∧ (_urlkey_to_url ("com,example)/".toList) = some ("example.com".toList))
  ∧ (∀ k, _urlkey_to_url k = none ↔ ¬ ∃ a b, k = a ++ urlkeySep ++ b)
  ∧ (∀ d p, (¬ ∃ a b, d = a ++ urlkeySep ++ b) →
      _urlkey_to_url (d ++ urlkeySep ++ p) =
        some (List.intercalate ['.'] ((pySplitAll [','] d).reverse) ++
          (if !p.isEmpty then '/' :: p else []))) := by
  refine ⟨rfl, rfl, ?_, ?_⟩
  · intro k
    unfold _urlkey_to_url
    cases hk : splitFirst urlkeySep k with
    | none =>
      constructor
      · intro _
        exact (splitFirst_eq_none_iff urlkeySep k).mp hk
      · intro _
        rfl
    | some dp =>
      obtain ⟨d, p⟩ := dp
      have hex : ∃ a b, k = a ++ urlkeySep ++ b :=
        ⟨d, p, splitFirst_eq_some urlkeySep k d p hk⟩
      simp only []
      constructor
      · intro hnone
        exact absurd hnone (by split <;> simp)
      · intro hn
        exact absurd hex hn
  · intro d p hd
    have hsf : splitFirst urlkeySep (d ++ urlkeySep ++ p) = some (d, p) :=
      splitFirst_pair_append (by decide) d p hd
    unfold _urlkey_to_url
    rw [hsf]
    cases p with
    | nil => simp
    | cons q qs => simp

/-- C3 witness: the general separator-splitting conjunct evaluated on the
concrete key `org,wikipedia)/wiki/Lean`. -/
theorem claim_c3_witness :
    _urlkey_to_url ("org,wikipedia".toList ++ urlkeySep ++ "wiki/Lean".toList) =
      some ("wikipedia.org/wiki/Lean".toList) := by
  have h := claim_c3.2.2.2 ("org,wikipedia".toList) ("wiki/Lean".toList)
    ((splitFirst_eq_none_iff urlkeySep ("org,wikipedia".toList)).mp rfl)
  exact h.trans rfl

/-- C4: `find_domain_urls` equals the spec-side first-seen deduplication of
the processed urlkey stream (transformed, falsy entries dropped,
percent-decoded, stripped, in partition-then-page-then-line order), its
output has no duplicates, and it contains exactly the processed URLs. -/
theorem claim_c4 (indexes : List String) (pagesNumber : String → Nat)
    (pageLines : String → Nat → List (List Char)) (unquote : List Char → List Char) :
    find_domain_urls indexes pagesNumber pageLines unquote =
      dedupFirstSeen ((((((indexes.map (get_domain_urls_in_index pagesNumber
          pageLines)).flatten.map _urlkey_to_url).filterMap id).filter
          (fun u => !u.isEmpty)).map unquote).map (fun u => pyStrip u))
  ∧ (find_domain_urls indexes pagesNumber pageLines unquote).Nodup
  ∧ (∀ u, u ∈ find_domain_urls indexes pagesNumber pageLines unquote ↔
      u ∈ (((((indexes.map (get_domain_urls_in_index pagesNumber
          pageLines)).flatten.map _urlkey_to_url).filterMap id).filter
          (fun u => !u.isEmpty)).map unquote).map (fun u => pyStrip u)) :=
  ⟨unique_eq_dedupFirstSeen _, unique_nodup _, fun u => mem_unique _ u⟩

/-- The selection of `__locate_most_relevant_location` as a single `find?`:
the first record with status 200, else the first record overall. -/
theorem locate_most_relevant_eq_find (locations : List LocationRecord) :
    locate_most_relevant_location locations =
      match locations.find? (fun r => r.status == "200") with
      | some r => some r
      | none => locations.head? := by
  unfold locate_most_relevant_location
  rw [find?_eq_filter_head?]
  cases locations.filter (fun x => x.status == "200") with
  | nil => rfl
  | cons r rs => rfl

/-- C1: `get_url_location` returns the first candidate of the combined
partition-ordered list whose status is the string 200; if none, the first
candidate overall; `none` when the combined list is empty.  The result is a
`find?`/`head?` over the list in query order, so candidates are never
reordered by timestamp. -/
theorem claim_c1 (indexes : List String)
    (locate : String → String → Option (List LocationRecord)) (url : String) :
    get_url_location indexes locate url =
      match (combined_locations indexes (fun index => locate index url)).find?
          (fun r => r.status == "200") with
      | some r => some r
      | none => (combined_locations indexes (fun index => locate index url)).head? := by
  unfold get_url_location
  rw [← locate_most_relevant_eq_find]
  cases combined_locations indexes (fun index => locate index url) with
  | nil => rfl
  | cons r rs => rfl

/-- Concatenation of combined candidate lists over split partition lists. -/
theorem combined_locations_append (l1 l2 : List String)
    (locate : String → Option (List LocationRecord)) :
    combined_locations (l1 ++ l2) locate =
      combined_locations l1 locate ++ combined_locations l2 locate := by
  unfold combined_locations
  rw [List.map_append, List.filterMap_append, List.flatten_append]

/-- C8: a partition whose location query answers with a status outside
2xx and different from 503 yields the skipped outcome, contributes `None`
(hence nothing, and no error) to the combined candidate list; a 2xx answer
contributes one record per response line, each tagged with the partition. -/
theorem claim_c8 (index : String) (resp : CdxResponse) :
    (¬ (200 ≤ resp.status_code ∧ resp.status_code < 300) → resp.status_code ≠ 503 →
      locate_url_step index resp = LocateOutcome.skipped
      ∧ outcome_contribution (locate_url_step index resp) = none)
  ∧ (200 ≤ resp.status_code → resp.status_code < 300 →
      locate_url_step index resp =
        LocateOutcome.contributes (resp.records.map (tagRecord index)))
  ∧ (∀ (locate : String → Option (List LocationRecord)) (pre post : List String),
      ¬ (200 ≤ resp.status_code ∧ resp.status_code < 300) → resp.status_code ≠ 503 →
      locate index = outcome_contribution (locate_url_step index resp) →
      combined_locations (pre ++ index :: post) locate =
        combined_locations pre locate ++ combined_locations post locate) := by
  refine ⟨?_, ?_, ?_⟩
  · intro h1 h2
    unfold locate_url_step
    rw [if_neg h2, if_neg h1]
    exact ⟨rfl, rfl⟩
  · intro h1 h2
    unfold locate_url_step
    rw [if_neg (by omega), if_pos ⟨h1, h2⟩]
  · intro locate pre post h1 h2 hli
    have hstep : locate_url_step index resp = LocateOutcome.skipped := by
      unfold locate_url_step
      rw [if_neg h2, if_neg h1]
    rw [combined_locations_append]
    congr 1
    unfold combined_locations
    rw [List.map_cons, hli, hstep]
    simp [outcome_contribution]

/-- C8 witness: a 404 partition response contributes nothing. -/
theorem claim_c8_witness :
    locate_url_step "cdx-1" ⟨404, []⟩ = LocateOutcome.skipped
    ∧ outcome_contribution (locate_url_step "cdx-1" ⟨404, []⟩) = none :=
  (claim_c8 "cdx-1" ⟨404, []⟩).1 (by decide) (by decide)

/-! ## The catalog retry loop -/

theorem range_map_shift (rand : Nat → Nat) (start b : Nat) :
    (List.range (b + 1)).map (fun j => rand (start + j)) =
      rand start :: (List.range b).map (fun j => rand (start + 1 + j)) := by
  rw [List.range_succ_eq_map, List.map_cons, List.map_map]
  refine congrArg₂ List.cons (by rw [Nat.add_zero]) ?_
  apply List.map_congr_left
  intro i _
  simp only [Function.comp_apply]
  congr 1
  omega

theorem load_indexes_aux_attempts_le (responses : Nat → CatalogResponse)
    (rand : Nat → Nat) : ∀ (budget start : Nat),
    (load_indexes_aux responses rand start budget).2.1 ≤ budget := by
  intro budget
  induction budget with
  | zero => intro start; simp [load_indexes_aux]
  | succ b ih =>
    intro start
    simp only [load_indexes_aux]
    by_cases h : (responses start).reason = "OK"
    · rw [if_pos h]
      simp
    · rw [if_neg h]
      have hb := ih (start + 1)
      cases haux : load_indexes_aux responses rand (start + 1) b with
      | mk r as =>
        obtain ⟨a, s⟩ := as
        rw [haux] at hb
        simp only [haux]
        simpa using hb

theorem load_indexes_aux_all_fail (responses : Nat → CatalogResponse)
    (rand : Nat → Nat) : ∀ (budget start : Nat),
    (∀ j, j < budget → (responses (start + j)).reason ≠ "OK") →
    load_indexes_aux responses rand start budget =
      (none, budget, (List.range budget).map (fun j => rand (start + j))) := by
  intro budget
  induction budget with
  | zero => intro start _; simp [load_indexes_aux]
  | succ b ih =>
    intro start hfail
    simp only [load_indexes_aux]
    rw [if_neg (by simpa using hfail 0 (Nat.succ_pos b))]
    rw [ih (start + 1) (fun j hj => by
      rw [show start + 1 + j = start + (j + 1) by omega]
      exact hfail (j + 1) (by omega))]
    rw [range_map_shift]

theorem load_indexes_aux_first_ok (responses : Nat → CatalogResponse)
    (rand : Nat → Nat) : ∀ (budget start j : Nat),
    j < budget → (responses (start + j)).reason = "OK" →
    (∀ i, i < j → (responses (start + i)).reason ≠ "OK") →
    load_indexes_aux responses rand start budget =
      (some (start + j), j + 1, (List.range j).map (fun i => rand (start + i))) := by
  intro budget
  induction budget with
  | zero => intro start j hj _ _; exact absurd hj (Nat.not_lt_zero j)
  | succ b ih =>
    intro start j hj hok hbefore
    simp only [load_indexes_aux]
    cases j with
    | zero =>
      rw [if_pos (by simpa using hok)]
      simp
    | succ j0 =>
      rw [if_neg (by simpa using hbefore 0 (Nat.succ_pos j0))]
      rw [ih (start + 1) j0 (by omega)
        (by rw [show start + 1 + j0 = start + (j0 + 1) by omega]; exact hok)
        (fun i hi => by
          rw [show start + 1 + i = start + (i + 1) by omega]
          exact hbefore (i + 1) (by omega))]
      rw [range_map_shift]
      refine congrArg₂ Prod.mk (by rw [show start + 1 + j0 = start + (j0 + 1) by omega]) rfl

theorem load_indexes_aux_none_iff (responses : Nat → CatalogResponse)
    (rand : Nat → Nat) : ∀ (budget start : Nat),
    (load_indexes_aux responses rand start budget).1 = none ↔
      ∀ j, j < budget → (responses (start + j)).reason ≠ "OK" := by
  intro budget
  induction budget with
  | zero =>
    intro start
    simp [load_indexes_aux, Nat.not_lt_zero]
  | succ b ih =>
    intro start
    simp only [load_indexes_aux]
    by_cases h : (responses start).reason = "OK"
    · rw [if_pos h]
      constructor
      · intro hc
        exact absurd hc (by simp)
      · intro hall
        exact absurd h (by simpa using hall 0 (Nat.succ_pos b))
    · rw [if_neg h]
      have hih := ih (start + 1)
      cases haux : load_indexes_aux responses rand (start + 1) b with
      | mk r as =>
        obtain ⟨a, s⟩ := as
        rw [haux] at hih
        simp only [haux]
        simp only at hih
        constructor
        · intro hr j hj
          cases j with
          | zero => simpa using h
          | succ j0 =>
            rw [show start + (j0 + 1) = start + 1 + j0 by omega]
            exact (hih.mp (by simpa using hr)) j0 (by omega)
        · intro hall
          have : r = none := hih.mpr (fun j hj => by
            rw [show start + 1 + j = start + (j + 1) by omega]
            exact hall (j + 1) (by omega))
          simpa using this

theorem load_indexes_aux_sleeps (responses : Nat → CatalogResponse)
    (rand : Nat → Nat) : ∀ (budget start : Nat) (s : Nat),
    s ∈ (load_indexes_aux responses rand start budget).2.2 → ∃ i, s = rand i := by
  intro budget
  induction budget with
  | zero => intro start s hs; simp [load_indexes_aux] at hs
  | succ b ih =>
    intro start s hs
    simp only [load_indexes_aux] at hs
    by_cases h : (responses start).reason = "OK"
    · rw [if_pos h] at hs
      simp at hs
    · rw [if_neg h] at hs
      cases haux : load_indexes_aux responses rand (start + 1) b with
      | mk r as =>
        obtain ⟨a, sl⟩ := as
        rw [haux] at hs
        simp only [List.mem_cons] at hs
        rcases hs with rfl | hs
        · exact ⟨start, rfl⟩
        · exact ih (start + 1) s (by rw [haux]; exact hs)

theorem load_indexes_run_eq (responses : Nat → CatalogResponse)
    (rand : Nat → Nat) (recent_k : Nat) :
    (load_indexes responses rand recent_k).attempts =
      (load_indexes_aux responses rand 0 10).2.1
    ∧ (load_indexes responses rand recent_k).sleeps =
      (load_indexes_aux responses rand 0 10).2.2 := by
  unfold load_indexes
  cases load_indexes_aux responses rand 0 10 with
  | mk r as =>
    obtain ⟨a, s⟩ := as
    cases r <;> exact ⟨rfl, rfl⟩

/-- C6: the catalog load makes at most 10 GET attempts; when all 10
responses are non-success it returns the `IOError` after 10 sleeps; when
attempt `j` is the first success it stops there (`j + 1` attempts, `j`
sleeps) and returns the truncated `cdx-api` list of that response; every
sleep lasts between 1 and 3 units; and an error is surfaced exactly when
all 10 attempts fail. -/
theorem claim_c6 (responses : Nat → CatalogResponse) (rand : Nat → Nat)
    (recent_k : Nat) (hrand : ∀ n, 1 ≤ rand n ∧ rand n ≤ 3) :
    (load_indexes responses rand recent_k).attempts ≤ 10
  ∧ ((∀ i, i < 10 → (responses i).reason ≠ "OK") →
      load_indexes responses rand recent_k =
        ⟨Except.error "Common crawl index is unreachable.", 10,
          (List.range 10).map rand⟩)
  ∧ (∀ j, j < 10 → (responses j).reason = "OK" →
      (∀ i, i < j → (responses i).reason ≠ "OK") →
      (load_indexes responses rand recent_k).attempts = j + 1
      ∧ (load_indexes responses rand recent_k).sleeps = (List.range j).map rand
      ∧ (load_indexes responses rand recent_k).result =
          Except.ok (if recent_k ≠ 0 then ((responses j).cdx_apis).take recent_k
            else (responses j).cdx_apis))
  ∧ (∀ s, s ∈ (load_indexes responses rand recent_k).sleeps → 1 ≤ s ∧ s ≤ 3)
  ∧ ((∃ e, (load_indexes responses rand recent_k).result = Except.error e) ↔
      ∀ i, i < 10 → (responses i).reason ≠ "OK") := by
  refine ⟨?_, ?_, ?_, ?_, ?_⟩
  · rw [(load_indexes_run_eq responses rand recent_k).1]
    exact load_indexes_aux_attempts_le responses rand 10 0
  · intro hall
    unfold load_indexes
    rw [load_indexes_aux_all_fail responses rand 10 0
      (fun j hj => by rw [Nat.zero_add]; exact hall j hj)]
    simp only [Nat.zero_add]
  · intro j hj hok hbefore
    unfold load_indexes
    rw [load_indexes_aux_first_ok responses rand 10 0 j hj
      (by rw [Nat.zero_add]; exact hok)
      (fun i hi => by rw [Nat.zero_add]; exact hbefore i hi)]
    simp [Nat.zero_add]
  · intro s hs
    rw [(load_indexes_run_eq responses rand recent_k).2] at hs
    obtain ⟨i, rfl⟩ := load_indexes_aux_sleeps responses rand 10 0 s hs
    exact hrand i
  · have hiff := load_indexes_aux_none_iff responses rand 10 0
    simp only [Nat.zero_add] at hiff
    unfold load_indexes
    cases haux : load_indexes_aux responses rand 0 10 with
    | mk r as =>
      obtain ⟨a, s⟩ := as
      rw [haux] at hiff
      simp only at hiff
      cases r with
      | none =>
        simp only []
        exact ⟨fun _ => hiff.mp rfl, fun _ => ⟨_, rfl⟩⟩
      | some i =>
        simp only []
        constructor
        · rintro ⟨e, he⟩
          exact absurd he (by simp)
        · intro hall
          exact absurd (hiff.mpr hall) (by simp)

/-- C6 witness: with failures on attempts 0 to 2 and a success on attempt
3, the loop stops after 4 attempts and returns the truncated list. -/
theorem claim_c6_witness :
    (load_indexes c6_responses c6_rand 1).attempts = 4
    ∧ (load_indexes c6_responses c6_rand 1).result = Except.ok ["cdx-one"] := by
  have h := (claim_c6 c6_responses c6_rand 1
    (fun n => by unfold c6_rand; omega)).2.2.1 3 (by decide)
    (by decide) (by decide)
  exact ⟨h.1, h.2.2.trans rfl⟩

/-! ## The archive slice parser -/

/-- C9: `get_page_data_from_warc` returns a record exactly when the
whitespace-stripped text contains a `CRLFCRLF` separator; with no separator
the split yields the single stripped segment and the unguarded access to
the protocol-header segment raises `IndexError`. -/
theorem claim_c9 (content : List Char) :
    ((∃ parts, get_page_data_from_warc content = Except.ok parts) ↔
      ∃ a b, pyStrip content = a ++ crlfcrlf ++ b)
  ∧ ((¬ ∃ a b, pyStrip content = a ++ crlfcrlf ++ b) →
      pySplit crlfcrlf 2 (pyStrip content) = [pyStrip content]
      ∧ get_page_data_from_warc content = Except.error "IndexError") := by
  cases hsf : splitFirst crlfcrlf (pyStrip content) with
  | none =>
    have hno := (splitFirst_eq_none_iff crlfcrlf (pyStrip content)).mp hsf
    have hsplit : pySplit crlfcrlf 2 (pyStrip content) = [pyStrip content] := by
      simp [pySplit, hsf]
    have herr : get_page_data_from_warc content = Except.error "IndexError" := by
      unfold get_page_data_from_warc
      rw [hsplit]
    refine ⟨⟨?_, ?_⟩, fun _ => ⟨hsplit, herr⟩⟩
    · rintro ⟨parts, hp⟩
      rw [herr] at hp
      exact absurd hp (by simp)
    · intro hex
      exact absurd hex hno
  | some ab =>
    obtain ⟨a, b⟩ := ab
    have hex : ∃ x y, pyStrip content = x ++ crlfcrlf ++ y :=
      ⟨a, b, splitFirst_eq_some crlfcrlf (pyStrip content) a b hsf⟩
    have hok : ∃ parts, get_page_data_from_warc content = Except.ok parts := by
      unfold get_page_data_from_warc
      cases hsf2 : splitFirst crlfcrlf b with
      | none =>
        refine ⟨⟨a, b, none⟩, ?_⟩
        simp [pySplit, hsf, hsf2]
      | some cd =>
        obtain ⟨c, d⟩ := cd
        refine ⟨⟨a, c, some d⟩, ?_⟩
        simp [pySplit, hsf, hsf2]
    exact ⟨⟨fun _ => hex, fun _ => hok⟩, fun hn => absurd hex hn⟩

/-- C9 witness: a bare body with no headers raises `IndexError`. -/
theorem claim_c9_witness :
    pySplit crlfcrlf 2 (pyStrip ("hello".toList)) = [pyStrip ("hello".toList)]
    ∧ get_page_data_from_warc ("hello".toList) = Except.error "IndexError" :=
  (claim_c9 ("hello".toList)).2
    ((splitFirst_eq_none_iff crlfcrlf (pyStrip ("hello".toList))).mp rfl)

/-- C5 (amended): when the whitespace-stripped payload contains exactly one
`CRLFCRLF` separator (the left-to-right scan finds one occurrence and none
after it), the parser returns — without error — a record whose archive and
protocol headers are the two non-empty segments and whose body is absent. -/
theorem claim_c5 (content a b : List Char)
    (h1 : splitFirst crlfcrlf (pyStrip content) = some (a, b))
    (h2 : splitFirst crlfcrlf b = none) :
    get_page_data_from_warc content = Except.ok ⟨a, b, none⟩
    ∧ a ≠ [] ∧ b ≠ [] := by
  refine ⟨?_, ?_, ?_⟩
  · unfold get_page_data_from_warc
    simp [pySplit, h1, h2]
  · have hdec := splitFirst_eq_some crlfcrlf (pyStrip content) a b h1
    rintro rfl
    have hh : pyStrip content = '\r' :: ('\n' :: '\r' :: '\n' :: b) := by
      simpa [crlfcrlf] using hdec
    have hf := pyStrip_head_not_space content '\r' ('\n' :: '\r' :: '\n' :: b) hh
    exact absurd hf (by decide)
  · have hdec := splitFirst_eq_some crlfcrlf (pyStrip content) a b h1
    rintro rfl
    have hh : pyStrip content = (a ++ ['\r', '\n', '\r']) ++ ['\n'] := by
      rw [hdec]
      simp [crlfcrlf]
    have hf := pyStrip_last_not_space content (a ++ ['\r', '\n', '\r']) '\n' hh
    exact absurd hf (by decide)

/-- C5 witness: a slice with exactly one separator after stripping. -/
theorem claim_c5_witness :
    get_page_data_from_warc ("WARC-A\r\n\r\nHTTP-A".toList) =
      Except.ok ⟨"WARC-A".toList, "HTTP-A".toList, none⟩
    ∧ "WARC-A".toList ≠ ([] : List Char)
    ∧ "HTTP-A".toList ≠ ([] : List Char) :=
  claim_c5 ("WARC-A\r\n\r\nHTTP-A".toList) ("WARC-A".toList) ("HTTP-A".toList)
    rfl rfl

/-- C5 counterexample to the claim as stated: the decompressed payload
`a CRLFCRLF` contains exactly one separator, yet the parser raises
`IndexError` instead of returning a record, because the code splits the
whitespace-stripped text (here `a`, with no separator left), not the
payload itself. -/
theorem claim_c5_counterexample :
    (splitFirst crlfcrlf ("a\r\n\r\n".toList) = some ("a".toList, [])
      ∧ splitFirst crlfcrlf ([] : List Char) = none)
    ∧ get_page_data_from_warc ("a\r\n\r\n".toList) = Except.error "IndexError" :=
  ⟨⟨rfl, rfl⟩, rfl⟩

/-! ## The redirect header parser -/

/-- C10 (amended): `get_location_from_headers` raises exactly when the
header string contains no `CRLF`; otherwise it discards the first line,
hands the remainder to the header-field parser, and returns the `Location`
value when the field is present with a non-empty value, and no result when
the field is absent or its value is empty. -/
theorem claim_c10 (parseLoc : List Char → Option (List Char)) (headers : List Char) :
    ((∃ e, get_location_from_headers parseLoc headers = Except.error e) ↔
      ¬ ∃ a b, headers = a ++ crlf ++ b)
  ∧ (∀ pre post l, headers = pre ++ crlf ++ post →
      (¬ ∃ a b, pre = a ++ crlf ++ b) → parseLoc post = some l → l ≠ [] →
      get_location_from_headers parseLoc headers = Except.ok (some l))
  ∧ (∀ pre post, headers = pre ++ crlf ++ post →
      (¬ ∃ a b, pre = a ++ crlf ++ b) → parseLoc post = none →
      get_location_from_headers parseLoc headers = Except.ok none)
  ∧ (∀ pre post, headers = pre ++ crlf ++ post →
      (¬ ∃ a b, pre = a ++ crlf ++ b) → parseLoc post = some [] →
      get_location_from_headers parseLoc headers = Except.ok none) := by
  refine ⟨?_, ?_, ?_, ?_⟩
  · cases hsf : splitFirst crlf headers with
    | none =>
      have hres : get_location_from_headers parseLoc headers =
          Except.error "ValueError" := by
        unfold get_location_from_headers
        rw [hsf]
      rw [hres]
      constructor
      · intro _
        exact (splitFirst_eq_none_iff crlf headers).mp hsf
      · intro _
        exact ⟨"ValueError", rfl⟩
    | some pq =>
      obtain ⟨p, q⟩ := pq
      constructor
      · rintro ⟨e, he⟩
        unfold get_location_from_headers at he
        simp only [hsf] at he
        cases hp : parseLoc q with
        | none =>
          simp only [hp] at he
          exact absurd he (by simp)
        | some l =>
          simp only [hp] at he
          by_cases hl : (!l.isEmpty) = true
          · rw [if_pos hl] at he
            exact absurd he (by simp)
          · rw [if_neg hl] at he
            exact absurd he (by simp)
      · intro hn
        exact absurd ⟨p, q, splitFirst_eq_some crlf headers p q hsf⟩ hn
  · intro pre post l hdecomp hpre hl hlne
    have hpair : splitFirst crlf headers = some (pre, post) := by
      rw [hdecomp]
      exact splitFirst_pair_append (by decide) pre post hpre
    unfold get_location_from_headers
    simp only [hpair, hl]
    cases l with
    | nil => exact absurd rfl hlne
    | cons c cs => rfl
  · intro pre post hdecomp hpre hnone
    have hpair : splitFirst crlf headers = some (pre, post) := by
      rw [hdecomp]
      exact splitFirst_pair_append (by decide) pre post hpre
    unfold get_location_from_headers
    simp only [hpair, hnone]
  · intro pre post hdecomp hpre hempty
    have hpair : splitFirst crlf headers = some (pre, post) := by
      rw [hdecomp]
      exact splitFirst_pair_append (by decide) pre post hpre
    unfold get_location_from_headers
    simp only [hpair, hempty]
    rfl

/-- C10 witness: a status line followed by a Location header field. -/
theorem claim_c10_witness :
    get_location_from_headers c10_parseLoc
      ("HTTP/1.1 301 Moved\r\nLocation: http://x.example/y".toList) =
      Except.ok (some ("http://x.example/y".toList)) :=
  (claim_c10 c10_parseLoc
      ("HTTP/1.1 301 Moved\r\nLocation: http://x.example/y".toList)).2.1
    ("HTTP/1.1 301 Moved".toList) ("Location: http://x.example/y".toList)
    ("http://x.example/y".toList) rfl
    ((splitFirst_eq_none_iff crlf ("HTTP/1.1 301 Moved".toList)).mp rfl)
    rfl (by decide)

/-- C10 counterexample to the claim as stated: when the header parser finds
the `Location` field present with an empty value, the function returns no
result rather than that (empty) value, because the source tests the value
for truthiness. -/
theorem claim_c10_counterexample :
    get_location_from_headers (fun _ => some [])
      ("HTTP/1.1 301 Moved\r\nLocation:".toList) = Except.ok none
    ∧ get_location_from_headers (fun _ => some [])
        ("HTTP/1.1 301 Moved\r\nLocation:".toList) ≠
      Except.ok (some ([] : List Char)) :=
  ⟨rfl, by
    rw [show get_location_from_headers (fun _ => some [])
      ("HTTP/1.1 301 Moved\r\nLocation:".toList) = Except.ok none from rfl]
    simp⟩


/-! ## The page loader and its single-hop redirect -/

/-- With redirect-following disabled the loader never recurses, so its
result does not depend on the remaining fuel. -/
theorem load_page_data_fuel_nofollow (indexes : List String)
    (locate : String → String → Option (List LocationRecord))
    (warcContent : String → Nat → Nat → List Char)
    (parseLoc : List Char → Option (List Char)) (n : Nat) (u : String) :
    load_page_data_fuel indexes locate warcContent parseLoc (n + 1) u false =
      load_page_data_fuel indexes locate warcContent parseLoc 1 u false := by
  unfold load_page_data_fuel
  cases hres : get_url_location indexes locate u with
  | none => simp
  | some location =>
    cases hw : get_page_data_from_warc
        (warcContent location.filename location.offset location.length) with
    | error e => simp [hres]
    | ok result => simp [hres, hw]

/-- With redirect-following disabled the instrumented loader records only
its own invocation: no redirect hop is ever taken. -/
theorem load_page_data_calls_fuel_nofollow (indexes : List String)
    (locate : String → String → Option (List LocationRecord))
    (warcContent : String → Nat → Nat → List Char)
    (parseLoc : List Char → Option (List Char)) (n : Nat) (u : String) :
    (load_page_data_calls_fuel indexes locate warcContent parseLoc
      (n + 1) u false).2 = [(u, false)] := by
  unfold load_page_data_calls_fuel
  cases hres : get_url_location indexes locate u with
  | none => simp [hres]
  | some location =>
    cases hw : get_page_data_from_warc
        (warcContent location.filename location.offset location.length) with
    | error e => simp [hres, hw]
    | ok result => simp [hres, hw]

/-- The instrumented loader computes the same result as the plain one. -/
theorem load_page_data_calls_fst (indexes : List String)
    (locate : String → String → Option (List LocationRecord))
    (warcContent : String → Nat → Nat → List Char)
    (parseLoc : List Char → Option (List Char)) :
    ∀ (fuel : Nat) (u : String) (f : Bool),
    (load_page_data_calls_fuel indexes locate warcContent parseLoc fuel u f).1 =
      load_page_data_fuel indexes locate warcContent parseLoc fuel u f := by
  intro fuel
  induction fuel with
  | zero => intro u f; rfl
  | succ n ih =>
    intro u f
    unfold load_page_data_calls_fuel load_page_data_fuel
    cases hres : get_url_location indexes locate u with
    | none => simp [hres]
    | some location =>
      cases hw : get_page_data_from_warc
          (warcContent location.filename location.offset location.length) with
      | error e => simp [hres, hw]
      | ok result =>
        by_cases hf : (f && (location.status == "301" || location.status == "302")) = true
        · simp only [hres, hw, hf, if_true]
          cases hgl : get_location_from_headers parseLoc result.http_header with
          | error e => simp [hgl]
          | ok newUrl =>
            cases newUrl with
            | none => simp [hgl]
            | some nu =>
              simp only [hgl]
              cases hc : load_page_data_calls_fuel indexes locate warcContent parseLoc
                  n (String.mk nu) false with
              | mk cr ccalls =>
                have hih : cr = load_page_data_fuel indexes locate warcContent parseLoc
                    n (String.mk nu) false := by
                  have h0 := ih (String.mk nu) false
                  rw [hc] at h0
                  exact h0
                rw [← hih]
                cases cr with
                | error e => simp
                | ok r =>
                  cases r with
                  | none => simp
                  | some pr => simp
        · simp only [Bool.not_eq_true] at hf
          simp [hres, hw, hf]

/-- The redirect step of the loader at any remaining fuel: a resolved
redirect location whose protocol header names a target defers to one nested
load of that target with redirect-following disabled. -/
theorem load_page_data_fuel_redirect (indexes : List String)
    (locate : String → String → Option (List LocationRecord))
    (warcContent : String → Nat → Nat → List Char)
    (parseLoc : List Char → Option (List Char))
    (url : String) (location : LocationRecord) (parts : WarcParts) (fuel : Nat)
    (hres : get_url_location indexes locate url = some location)
    (hstatus : location.status = "301" ∨ location.status = "302")
    (hwarc : get_page_data_from_warc
      (warcContent location.filename location.offset location.length) = Except.ok parts)
    (nu : List Char)
    (hnu : get_location_from_headers parseLoc parts.http_header = Except.ok (some nu)) :
    load_page_data_fuel indexes locate warcContent parseLoc (fuel + 1) url true =
      (match load_page_data_fuel indexes locate warcContent parseLoc fuel
          (String.mk nu) false with
        | Except.error e => Except.error e
        | Except.ok (some r) => Except.ok (some r)
        | Except.ok none => Except.ok (some (mergeRecord location parts))) := by
  generalize hX : load_page_data_fuel indexes locate warcContent parseLoc fuel
    (String.mk nu) false = X
  unfold load_page_data_fuel
  rcases hstatus with h | h <;> simp [hres, hwarc, hnu, h, hX]

/-- The redirect step when the protocol header has no Location field: the
merged record is returned and no nested load happens. -/
theorem load_page_data_fuel_redirect_noloc (indexes : List String)
    (locate : String → String → Option (List LocationRecord))
    (warcContent : String → Nat → Nat → List Char)
    (parseLoc : List Char → Option (List Char))
    (url : String) (location : LocationRecord) (parts : WarcParts) (fuel : Nat)
    (hres : get_url_location indexes locate url = some location)
    (hstatus : location.status = "301" ∨ location.status = "302")
    (hwarc : get_page_data_from_warc
      (warcContent location.filename location.offset location.length) = Except.ok parts)
    (hnu : get_location_from_headers parseLoc parts.http_header = Except.ok none) :
    load_page_data_fuel indexes locate warcContent parseLoc (fuel + 1) url true =
      Except.ok (some (mergeRecord location parts)) := by
  unfold load_page_data_fuel
  rcases hstatus with h | h <;> simp [hres, hwarc, hnu, h]

/-- The traces of the two redirect steps: a named target is resolved once
with redirect-following disabled, a missing target is not resolved at all. -/
theorem load_page_data_calls_fuel_redirect (indexes : List String)
    (locate : String → String → Option (List LocationRecord))
    (warcContent : String → Nat → Nat → List Char)
    (parseLoc : List Char → Option (List Char))
    (url : String) (location : LocationRecord) (parts : WarcParts) (fuel : Nat)
    (hres : get_url_location indexes locate url = some location)
    (hstatus : location.status = "301" ∨ location.status = "302")
    (hwarc : get_page_data_from_warc
      (warcContent location.filename location.offset location.length) = Except.ok parts) :
    (∀ nu, get_location_from_headers parseLoc parts.http_header = Except.ok (some nu) →
      (load_page_data_calls_fuel indexes locate warcContent parseLoc
          (fuel + 1) url true).2 =
        (url, true) :: (load_page_data_calls_fuel indexes locate warcContent parseLoc
          fuel (String.mk nu) false).2)
  ∧ (get_location_from_headers parseLoc parts.http_header = Except.ok none →
      (load_page_data_calls_fuel indexes locate warcContent parseLoc
          (fuel + 1) url true).2 = [(url, true)]) := by
  constructor
  · intro nu hnu
    generalize hX : load_page_data_calls_fuel indexes locate warcContent parseLoc fuel
      (String.mk nu) false = X
    obtain ⟨cr, ccalls⟩ := X
    unfold load_page_data_calls_fuel
    rcases hstatus with h | h <;>
      cases cr with
      | error e => simp [hres, hwarc, hnu, h, hX]
      | ok r =>
        cases r with
        | none => simp [hres, hwarc, hnu, h, hX]
        | some pr => simp [hres, hwarc, hnu, h, hX]
  · intro hnu
    unfold load_page_data_calls_fuel
    rcases hstatus with h | h <;> simp [hres, hwarc, hnu, h]

/-- C7: when the location resolver yields no candidate, `load_page_data`
returns the explicit empty result (the `None` location is returned as-is)
and no error is raised. -/
theorem claim_c7 (indexes : List String)
    (locate : String → String → Option (List LocationRecord))
    (warcContent : String → Nat → Nat → List Char)
    (parseLoc : List Char → Option (List Char))
    (url : String) (follow_redirect : Bool)
    (h : get_url_location indexes locate url = none) :
    load_page_data indexes locate warcContent parseLoc url follow_redirect =
      Except.ok none := by
  unfold load_page_data load_page_data_fuel
  simp [h]

/-- C7 witness: a resolver with no candidates for any URL. -/
theorem claim_c7_witness :
    load_page_data ["cdx-1"] (fun _ _ => none) (fun _ _ _ => []) (fun _ => none)
      "http://missing.example/" true = Except.ok none :=
  claim_c7 ["cdx-1"] (fun _ _ => none) (fun _ _ _ => []) (fun _ => none)
    "http://missing.example/" true rfl

/-- C2: on a resolved location with status 301 or 302 whose protocol header
names a redirect target, `load_page_data` with redirect-following enabled
resolves exactly that target once more with redirect-following disabled
(trace `[(url, true), (target, false)]`), returns the nested result when it
exists and the merged record when the nested load yields no result; when
the Location field is absent it returns the merged record without any
nested resolution; and with redirect-following disabled no nested
resolution ever happens, even if the target is itself a redirect.  The
instrumented loader used for the traces computes the same results as
`load_page_data`. -/
theorem claim_c2 (indexes : List String)
    (locate : String → String → Option (List LocationRecord))
    (warcContent : String → Nat → Nat → List Char)
    (parseLoc : List Char → Option (List Char))
    (url : String) (location : LocationRecord) (parts : WarcParts)
    (hres : get_url_location indexes locate url = some location)
    (hstatus : location.status = "301" ∨ location.status = "302")
    (hwarc : get_page_data_from_warc
      (warcContent location.filename location.offset location.length) =
        Except.ok parts) :
    (∀ new_url, get_location_from_headers parseLoc parts.http_header =
        Except.ok (some new_url) →
      load_page_data indexes locate warcContent parseLoc url true =
        (match load_page_data indexes locate warcContent parseLoc
            (String.mk new_url) false with
          | Except.error e => Except.error e
          | Except.ok (some r) => Except.ok (some r)
          | Except.ok none => Except.ok (some (mergeRecord location parts)))
      ∧ (load_page_data_calls indexes locate warcContent parseLoc url true).2 =
          [(url, true), (String.mk new_url, false)])
  ∧ (get_location_from_headers parseLoc parts.http_header = Except.ok none →
      load_page_data indexes locate warcContent parseLoc url true =
        Except.ok (some (mergeRecord location parts))
      ∧ (load_page_data_calls indexes locate warcContent parseLoc url true).2 =
          [(url, true)])
  ∧ (∀ u, (load_page_data_calls indexes locate warcContent parseLoc u false).2 =
      [(u, false)])
  ∧ (∀ u f, (load_page_data_calls indexes locate warcContent parseLoc u f).1 =
      load_page_data indexes locate warcContent parseLoc u f) := by
  refine ⟨?_, ?_, ?_, ?_⟩
  · intro nu hnu
    constructor
    · have h1 := load_page_data_fuel_redirect indexes locate warcContent parseLoc
        url location parts 1 hres hstatus hwarc nu hnu
      have h2 := load_page_data_fuel_nofollow indexes locate warcContent parseLoc
        1 (String.mk nu)
      unfold load_page_data
      rw [h1, ← h2]
    · have t1 := (load_page_data_calls_fuel_redirect indexes locate warcContent
        parseLoc url location parts 1 hres hstatus hwarc).1 nu hnu
      have t2 := load_page_data_calls_fuel_nofollow indexes locate warcContent
        parseLoc 0 (String.mk nu)
      unfold load_page_data_calls
      rw [t1]
      exact congrArg (List.cons (url, true)) t2
  · intro hnu
    constructor
    · exact load_page_data_fuel_redirect_noloc indexes locate warcContent parseLoc
        url location parts 1 hres hstatus hwarc hnu
    · exact (load_page_data_calls_fuel_redirect indexes locate warcContent
        parseLoc url location parts 1 hres hstatus hwarc).2 hnu
  · intro u
    exact load_page_data_calls_fuel_nofollow indexes locate warcContent parseLoc 1 u
  · intro u f
    exact load_page_data_calls_fst indexes locate warcContent parseLoc 2 u f

/-- C2 witness: a 301 capture of `http://a.example/p` redirecting to
`http://b.example/q`; the trace shows exactly one nested resolution with
redirect-following disabled, although the target is itself a 302. -/
theorem claim_c2_witness :
    (load_page_data ["cdx-1"] c2_locate c2_warcContent c2_parseLoc
        "http://a.example/p" true =
      (match load_page_data ["cdx-1"] c2_locate c2_warcContent c2_parseLoc
          "http://b.example/q" false with
        | Except.error e => Except.error e
        | Except.ok (some r) => Except.ok (some r)
        | Except.ok none => Except.ok (some (mergeRecord c2_locA c2_partsA))))
    ∧ (load_page_data_calls ["cdx-1"] c2_locate c2_warcContent c2_parseLoc
        "http://a.example/p" true).2 =
        [("http://a.example/p", true), ("http://b.example/q", false)] := by
  have h := (claim_c2 ["cdx-1"] c2_locate c2_warcContent c2_parseLoc
    "http://a.example/p" c2_locA c2_partsA rfl (Or.inl rfl) rfl).1
    ("http://b.example/q".toList) rfl
  exact ⟨h.1, h.2⟩
